import Mathlib

/-!
Verification of the similarity-search core of the `mcp-rag-sql-api` repository.

The development is a shallow embedding of `src/rag/vector-store.ts` (the
in-memory FAISS-like vector store) and `src/embedding/e5-embedder.ts` (the
embedding gateway).  Scalars are modelled over an arbitrary linear ordered
field `K` together with an explicit square-root function `sq : K → K`
standing for `Math.sqrt`; theorems about genuinely metric facts instantiate
`K := ℝ` and `sq := Real.sqrt`, while structural theorems hold for every
`sq`.  Stateful methods become explicit state-passing functions; a thrown
exception becomes an `Except` error that carries the store as mutated up to
the throw point (JavaScript exceptions do not roll back prior mutations).
-/

namespace RagSql

/-- Metadata record kept per stored vector (`VectorMetadata` in
`src/rag/vector-store.ts`): caller-supplied id, position (`index`) in the
collections, and the cached L2 norm of the raw vector. -/
structure VectorMetadata (K : Type) where
  id : String
  index : Nat
  norm : K
deriving DecidableEq, Repr

/-- State of the `VectorStore` class: raw vectors, metadata records and
normalized vectors (three index-aligned collections), the dimension
(`number | null` in the source, hence `Option Nat`), and the initialization
flag.  The `silent` option only gates console logging and is omitted;
`indexType` is kept because `getInfo` reports it. -/
structure VectorStore (K : Type) where
  vectors : List (List K)
  metadata : List (VectorMetadata K)
  normalizedVectors : List (List K)
  dimension : Option Nat
  isInitialized : Bool
  indexType : String
deriving DecidableEq, Repr

/-- The distinct `Error` values thrown by the vector store, one constructor
per `throw new Error(...)` site in `src/rag/vector-store.ts`. -/
inductive VSError
  | notInitialized
  | countMismatch
  | vectorDimensionMismatch (i : Nat) (expected : Option Nat) (got : Nat)
  | queryDimensionMismatch (expected : Option Nat) (got : Nat)
  | newVectorDimensionMismatch (expected : Option Nat) (got : Nat)
  | queryIdNotFound (id : String)
deriving DecidableEq, Repr

/-- Result of a fallible store operation: on error the store as left behind
at the moment of the throw is carried alongside the error (in-place JS
mutations performed before the throw are not rolled back). -/
abbrev VSResult (K : Type) (α : Type) := Except (VSError × VectorStore K) α

/-- A fresh store as built by the `VectorStore` constructor with default
options. -/
def emptyStore (K : Type) : VectorStore K :=
  { vectors := [], metadata := [], normalizedVectors := [],
    dimension := none, isInitialized := false, indexType := "flat" }

section Ops

variable {K : Type} [LinearOrderedField K]

/-- Default used to total out-of-range metadata access. -/
def mdDefault : VectorMetadata K := { id := "", index := 0, norm := 0 }

/-- The method `vectorNorm`: `Math.sqrt(vector.reduce((sum, val) => sum + val * val, 0))`. -/
def vectorNorm (sq : K → K) (vector : List K) : K :=
  sq (vector.foldl (fun sum val => sum + val * val) 0)

/-- The method `normalizeVector`: returns a copy of the vector unchanged if
its norm is `0`, otherwise divides every component by the norm. -/
def normalizeVector (sq : K → K) (vector : List K) : List K :=
  let n := vectorNorm sq vector
  if n = 0 then vector else vector.map (fun val => val / n)

/-- The method `fastCosineSimilarity`: the dot product of two (already
normalized) vectors, accumulated pairwise.  The source loops over the
indices of the first vector; both call sites pass vectors of equal length
(validated against `dimension`), where this zip-based form agrees with it. -/
def fastCosineSimilarity (normalizedA normalizedB : List K) : K :=
  (normalizedA.zip normalizedB).foldl (fun dotProduct p => dotProduct + p.1 * p.2) 0

/-- The method `initialize`: if already initialized it returns without
effect; otherwise it records the dimension and sets the flag.  (Named
`initStore` because `initialize` is a Lean keyword.) -/
def initStore (s : VectorStore K) (dimension : Nat) : VectorStore K :=
  if s.isInitialized then s
  else { s with dimension := some dimension, isInitialized := true }

/-- The `for` loop body of `addVectors`: each vector is dimension-checked
and then pushed (raw, normalized, and metadata with `index` equal to the
vector collection's length after the push minus one, i.e. before the push)
before the next one is examined; a mismatch throws, keeping earlier
pushes. -/
def addVectorsLoop (sq : K → K) :
    VectorStore K → List (List K × String) → Nat → VSResult K (VectorStore K)
  | s, [], _ => .ok s
  | s, (v, qid) :: rest, i =>
    if some v.length ≠ s.dimension then
      .error (.vectorDimensionMismatch i s.dimension v.length, s)
    else
      addVectorsLoop sq
        { s with
          vectors := s.vectors ++ [v],
          normalizedVectors := s.normalizedVectors ++ [normalizeVector sq v],
          metadata := s.metadata ++
            [{ id := qid, index := s.vectors.length, norm := vectorNorm sq v }] }
        rest (i + 1)

/-- The method `addVectors`: requires initialization, then equal batch
lengths, then runs the per-vector loop. -/
def addVectors (sq : K → K) (s : VectorStore K) (vectors : List (List K))
    (queryIds : List String) : VSResult K (VectorStore K) :=
  if s.isInitialized = false then .error (.notInitialized, s)
  else if vectors.length ≠ queryIds.length then .error (.countMismatch, s)
  else addVectorsLoop sq s (vectors.zip queryIds) 0

/-- One element of the `similarities` array built inside `search`. -/
structure SimEntry (K : Type) where
  index : Nat
  similarity : K
  id : String
deriving DecidableEq, Repr

/-- The `similarities` array of `search`: for each position `i` of the
normalized-vector collection, the dot product of the normalized query with
the stored normalized vector, together with the metadata id at `i`. -/
def searchEntries (normalizedQuery : List K) (s : VectorStore K) : List (SimEntry K) :=
  (List.range s.normalizedVectors.length).map fun i =>
    { index := i,
      similarity := fastCosineSimilarity normalizedQuery (s.normalizedVectors.getD i []),
      id := (s.metadata.getD i mdDefault).id }

/-- Stable descending insertion: the new entry is placed before the first
entry of strictly smaller similarity, hence after every earlier entry of
equal similarity. -/
def insertDesc (x : SimEntry K) : List (SimEntry K) → List (SimEntry K)
  | [] => [x]
  | y :: ys => if y.similarity < x.similarity then x :: y :: ys else y :: insertDesc x ys

/-- Stable sort, descending by similarity: models
`similarities.sort((a, b) => b.similarity - a.similarity)`, which ECMA-262
guarantees to be a stable sort, as a stable insertion sort. -/
def sortDesc (l : List (SimEntry K)) : List (SimEntry K) :=
  l.foldl (fun sorted x => insertDesc x sorted) []

/-- The method `partialSort`: full stable descending sort followed by
`slice(0, k)`. -/
def partialSort (similarities : List (SimEntry K)) (k : Nat) : List (SimEntry K) :=
  (sortDesc similarities).take k

/-- One formatted search result `{id, score, distance}`. -/
structure SearchResult (K : Type) where
  id : String
  score : K
  distance : K
deriving DecidableEq, Repr

/-- The method `search`: initialization and query-dimension checks, query
normalization, similarity computation, partial sort, and result
formatting with `distance = 1 - similarity`.  The method performs no
assignment to the store, so the unchanged store is returned alongside the
results. -/
def search (sq : K → K) (s : VectorStore K) (queryVector : List K) (k : Nat) :
    VSResult K (List (SearchResult K) × VectorStore K) :=
  if s.isInitialized = false then .error (.notInitialized, s)
  else if some queryVector.length ≠ s.dimension then
    .error (.queryDimensionMismatch s.dimension queryVector.length, s)
  else
    let normalizedQuery := normalizeVector sq queryVector
    .ok ((partialSort (searchEntries normalizedQuery s) k).map
      (fun r => { id := r.id, score := r.similarity, distance := 1 - r.similarity }), s)

/-- JavaScript `Array.prototype.findIndex` (with `-1` rendered as `none`),
threading the current position. -/
def findIndexAux (p : VectorMetadata K → Bool) :
    List (VectorMetadata K) → Nat → Option Nat
  | [], _ => none
  | m :: ms, i => if p m then some i else findIndexAux p ms (i + 1)

/-- `metadata.findIndex(meta => meta.id === queryId)`. -/
def findIndex (p : VectorMetadata K → Bool) (l : List (VectorMetadata K)) : Option Nat :=
  findIndexAux p l 0

/-- The re-numbering loop of `removeVector`:
`for (i = index; i < metadata.length; i++) metadata[i].index = i`, with the
current position threaded. -/
def updateIndicesFrom (start : Nat) : Nat → List (VectorMetadata K) → List (VectorMetadata K)
  | _, [] => []
  | i, m :: ms =>
    (if start ≤ i then { m with index := i } else m) :: updateIndicesFrom start (i + 1) ms

/-- The method `removeVector`: locate the id (throwing `NotFoundError` when
absent — note there is no initialization check), splice the position out of
all three collections, and re-number the metadata `index` fields from the
removal point. -/
def removeVector (s : VectorStore K) (queryId : String) : VSResult K (VectorStore K) :=
  match findIndex (fun meta => meta.id == queryId) s.metadata with
  | none => .error (.queryIdNotFound queryId, s)
  | some index => .ok
      { s with
        vectors := s.vectors.eraseIdx index,
        normalizedVectors := s.normalizedVectors.eraseIdx index,
        metadata := updateIndicesFrom index 0 (s.metadata.eraseIdx index) }

/-- The method `updateVector`: locate the id (no initialization check),
check the new vector's dimension, then overwrite the raw vector, the
normalized vector and the cached norm in place at that position. -/
def updateVector (sq : K → K) (s : VectorStore K) (queryId : String)
    (newVector : List K) : VSResult K (VectorStore K) :=
  match findIndex (fun meta => meta.id == queryId) s.metadata with
  | none => .error (.queryIdNotFound queryId, s)
  | some index =>
    if some newVector.length ≠ s.dimension then
      .error (.newVectorDimensionMismatch s.dimension newVector.length, s)
    else .ok
      { s with
        vectors := s.vectors.set index newVector,
        normalizedVectors := s.normalizedVectors.set index (normalizeVector sq newVector),
        metadata := s.metadata.set index
          { s.metadata.getD index mdDefault with norm := vectorNorm sq newVector } }

/-- The snapshot returned by `getInfo`. -/
structure VectorStoreInfo where
  dimension : Option Nat
  vectorCount : Nat
  activeVectors : Nat
  indexType : String
  indexPath : String
  isInitialized : Bool
  memVectors : Nat
  memNormalizedVectors : Nat
  memMetadata : Nat
deriving DecidableEq, Repr

/-- The method `getInfo`. -/
def getInfo (s : VectorStore K) : VectorStoreInfo :=
  { dimension := s.dimension,
    vectorCount := s.vectors.length,
    activeVectors := s.metadata.length,
    indexType := s.indexType,
    indexPath := "in-memory-faiss-like",
    isInitialized := s.isInitialized,
    memVectors := s.vectors.length * (s.dimension.getD 0) * 8,
    memNormalizedVectors := s.normalizedVectors.length * (s.dimension.getD 0) * 8,
    memMetadata := s.metadata.length * 100 }

/-- The method `cleanup`: clears the three collections and resets the
initialization flag (the dimension is kept). -/
def cleanup (s : VectorStore K) : VectorStore K :=
  { s with vectors := [], normalizedVectors := [], metadata := [], isInitialized := false }

/-- The alignment invariant of the store: the three collections have equal
length and the metadata record at position `i` carries `index = i`. -/
def WellFormed (s : VectorStore K) : Prop :=
  s.vectors.length = s.metadata.length ∧
  s.normalizedVectors.length = s.metadata.length ∧
  ∀ i ∈ List.range s.metadata.length, (s.metadata.getD i mdDefault).index = i

instance (s : VectorStore K) : Decidable (WellFormed s) := by
  unfold WellFormed
  infer_instance

end Ops

/-- Errors thrown by `E5Embedder.embed` in `src/embedding/e5-embedder.ts`,
one constructor per throw site: not initialized, empty text, and a failure
of the external model call (wrapped, carrying its message). -/
inductive EmbError
  | notInitialized
  | invalidText
  | generationFailed (msg : String)
deriving DecidableEq, Repr

/-- The method `E5Embedder.embed`: after the initialization and non-empty
text checks it calls the external model on the prefixed trimmed text and
returns the model's output vector as-is — the source performs no check of
the returned vector's length.  The external capability is a parameter
`model`; a failing capability is a `.error` result, wrapped like the
source's catch-and-rethrow. -/
def e5Embed {K : Type} (isInitialized : Bool) (model : String → Except String (List K))
    (text : String) (pfx : String) : Except EmbError (List K) :=
  if isInitialized = false then .error .notInitialized
  else if text = "" then .error .invalidText
  else
    match model (pfx ++ text.trim) with
    | .ok embedding => .ok embedding
    | .error msg => .error (.generationFailed msg)

/-- The method `embedQuery`: embed with the `query: ` role prefix. -/
def embedQuery {K : Type} (isInitialized : Bool) (model : String → Except String (List K))
    (query : String) : Except EmbError (List K) :=
  e5Embed isInitialized model query "query: "

/-- The method `embedDocument`: embed with the `passage: ` role prefix. -/
def embedDocument {K : Type} (isInitialized : Bool) (model : String → Except String (List K))
    (document : String) : Except EmbError (List K) :=
  e5Embed isInitialized model document "passage: "

/-- The method `getDimension`: the constant `1024` (E5-large-v2). -/
def getDimension : Nat := 1024

section SpecDefs

variable {K : Type} [LinearOrderedField K]

/-- Metadata records produced for a batch of accepted (vector, id) pairs
appended when the vector collection already holds `base` vectors: the `j`-th
pair is recorded at position `base + j`. -/
def addedMetadata (sq : K → K) : Nat → List (List K × String) → List (VectorMetadata K)
  | _, [] => []
  | base, (v, qid) :: rest =>
    { id := qid, index := base, norm := vectorNorm sq v } :: addedMetadata sq (base + 1) rest

/-- The ranking order the spec demands of search results: strictly greater
similarity first, and among entries of equal similarity the smaller
(earlier-inserted) position first. -/
def lexBefore (a b : SimEntry K) : Prop :=
  b.similarity < a.similarity ∨ (b.similarity = a.similarity ∧ a.index < b.index)

/-- States reachable from a fresh store by successful operations, together
with the total number of vectors ever successfully added and the total
number of removals — the counters of the claim, which keep counting across
`cleanup`. -/
inductive ReachedTotal (sq : K → K) : VectorStore K → Nat → Nat → Prop
  | fresh : ReachedTotal sq (emptyStore K) 0 0
  | doInit (s : VectorStore K) (a r d : Nat) :
      ReachedTotal sq s a r → ReachedTotal sq (initStore s d) a r
  | doAdd (s s' : VectorStore K) (a r : Nat) (vs : List (List K)) (ids : List String) :
      ReachedTotal sq s a r → addVectors sq s vs ids = .ok s' →
      ReachedTotal sq s' (a + vs.length) r
  | doRemove (s s' : VectorStore K) (a r : Nat) (qid : String) :
      ReachedTotal sq s a r → removeVector s qid = .ok s' →
      ReachedTotal sq s' a (r + 1)
  | doUpdate (s s' : VectorStore K) (a r : Nat) (qid : String) (v : List K) :
      ReachedTotal sq s a r → updateVector sq s qid v = .ok s' →
      ReachedTotal sq s' a r
  | doCleanup (s : VectorStore K) (a r : Nat) :
      ReachedTotal sq s a r → ReachedTotal sq (cleanup s) a r

/-- States reachable from a fresh store by successful operations, where the
add/remove counters are measured since the most recent `cleanup` (which
discards every record and so resets both). -/
inductive ReachedSinceCleanup (sq : K → K) : VectorStore K → Nat → Nat → Prop
  | fresh : ReachedSinceCleanup sq (emptyStore K) 0 0
  | doInit (s : VectorStore K) (a r d : Nat) :
      ReachedSinceCleanup sq s a r → ReachedSinceCleanup sq (initStore s d) a r
  | doAdd (s s' : VectorStore K) (a r : Nat) (vs : List (List K)) (ids : List String) :
      ReachedSinceCleanup sq s a r → addVectors sq s vs ids = .ok s' →
      ReachedSinceCleanup sq s' (a + vs.length) r
  | doRemove (s s' : VectorStore K) (a r : Nat) (qid : String) :
      ReachedSinceCleanup sq s a r → removeVector s qid = .ok s' →
      ReachedSinceCleanup sq s' a (r + 1)
  | doUpdate (s s' : VectorStore K) (a r : Nat) (qid : String) (v : List K) :
      ReachedSinceCleanup sq s a r → updateVector sq s qid v = .ok s' →
      ReachedSinceCleanup sq s' a r
  | doCleanup (s : VectorStore K) (a r : Nat) :
      ReachedSinceCleanup sq s a r → ReachedSinceCleanup sq (cleanup s) 0 0

end SpecDefs

/-- Store used to instantiate structural theorems at a concrete input. -/
def demoStore1 : VectorStore ℚ :=
  { vectors := [[2]], metadata := [{ id := "x", index := 0, norm := 1 }],
    normalizedVectors := [[2]], dimension := some 1,
    isInitialized := true, indexType := "flat" }

/-- The store obtained from a fresh store by `initialize 1` followed by
`addVectors [[2]] ["a"]` under the trivial square root `fun _ => 1`. -/
def demoStore2 : VectorStore ℚ :=
  { vectors := [[2]], metadata := [{ id := "a", index := 0, norm := 1 }],
    normalizedVectors := [[2]], dimension := some 1,
    isInitialized := true, indexType := "flat" }

section ListHelpers

variable {α : Type}

lemma getD_append_lt (l l' : List α) (i : Nat) (d : α) (h : i < l.length) :
    (l ++ l').getD i d = l.getD i d := by
  induction l generalizing i with
  | nil => simp at h
  | cons a t ih =>
    cases i with
    | zero => rfl
    | succ j => exact ih j (by simpa using h)

lemma getD_append_add (l l' : List α) (i : Nat) (d : α) :
    (l ++ l').getD (l.length + i) d = l'.getD i d := by
  induction l with
  | nil => simp
  | cons a t ih =>
    have h : (a :: t).length + i = (t.length + i) + 1 := by
      simp [Nat.succ_add]
    rw [h]
    simpa using ih

lemma getD_of_length_le (l : List α) (i : Nat) (d : α) (h : l.length ≤ i) :
    l.getD i d = d := by
  induction l generalizing i with
  | nil => cases i <;> rfl
  | cons a t ih =>
    cases i with
    | zero => simp at h
    | succ j => exact ih j (by simpa using h)

lemma getD_set_self (l : List α) (i : Nat) (x d : α) (h : i < l.length) :
    (l.set i x).getD i d = x := by
  induction l generalizing i with
  | nil => simp at h
  | cons a t ih =>
    cases i with
    | zero => rfl
    | succ j => exact ih j (by simpa using h)

lemma getD_set_ne (l : List α) (i j : Nat) (x d : α) (h : j ≠ i) :
    (l.set i x).getD j d = l.getD j d := by
  induction l generalizing i j with
  | nil => rfl
  | cons a t ih =>
    cases i with
    | zero =>
      cases j with
      | zero => exact absurd rfl h
      | succ j' => rfl
    | succ i' =>
      cases j with
      | zero => rfl
      | succ j' => exact ih i' j' (fun hc => h (by rw [hc]))

lemma getD_eraseIdx_lt (l : List α) (i j : Nat) (d : α) (h : j < i) :
    (l.eraseIdx i).getD j d = l.getD j d := by
  induction l generalizing i j with
  | nil => rfl
  | cons a t ih =>
    cases i with
    | zero => simp at h
    | succ i' =>
      cases j with
      | zero => rfl
      | succ j' => exact ih i' j' (by omega)

lemma getD_eraseIdx_ge (l : List α) (i j : Nat) (d : α) (h : i ≤ j) :
    (l.eraseIdx i).getD j d = l.getD (j + 1) d := by
  induction l generalizing i j with
  | nil => rfl
  | cons a t ih =>
    cases i with
    | zero => rfl
    | succ i' =>
      cases j with
      | zero => simp at h
      | succ j' => exact ih i' j' (by omega)

end ListHelpers

section StoreHelpers

variable {K : Type} [LinearOrderedField K]

lemma findIndexAux_nil (p : VectorMetadata K → Bool) (i : Nat) :
    findIndexAux p [] i = none := rfl

lemma findIndexAux_eq_none (p : VectorMetadata K → Bool) :
    ∀ (l : List (VectorMetadata K)) (i : Nat),
      (∀ m ∈ l, p m = false) → findIndexAux p l i = none := by
  intro l
  induction l with
  | nil => intro i _; rfl
  | cons m ms ih =>
    intro i h
    have hm : p m = false := h m (List.mem_cons_self m ms)
    simp only [findIndexAux, hm]
    exact ih (i + 1) (fun x hx => h x (List.mem_cons_of_mem m hx))

lemma findIndexAux_first (p : VectorMetadata K → Bool) (d : VectorMetadata K) :
    ∀ (l : List (VectorMetadata K)) (idx i : Nat), idx < l.length →
      p (l.getD idx d) = true → (∀ j < idx, p (l.getD j d) = false) →
      findIndexAux p l i = some (i + idx) := by
  intro l
  induction l with
  | nil => intro idx i h; simp at h
  | cons m ms ih =>
    intro idx i hlen hp hfirst
    cases idx with
    | zero =>
      simp only [List.getD_cons_zero] at hp
      simp [findIndexAux, hp]
    | succ idx' =>
      have hm : p m = false := by
        have := hfirst 0 (Nat.succ_pos idx')
        simpa using this
      simp only [findIndexAux, hm, Bool.false_eq_true, if_false]
      have := ih idx' (i + 1) (by simpa using hlen) (by simpa using hp)
        (fun j hj => by simpa using hfirst (j + 1) (by omega))
      rw [this]
      congr 1
      omega

lemma foldl_add_sq (v : List K) :
    v.foldl (fun sum val => sum + val * val) 0 = (v.map fun val => val * val).sum := by
  rw [List.sum_eq_foldl, List.foldl_map]

lemma sum_sq_nonneg (v : List K) : 0 ≤ (v.map fun val => val * val).sum := by
  refine List.sum_nonneg ?_
  intro x hx
  obtain ⟨y, _, rfl⟩ := List.mem_map.mp hx
  exact mul_self_nonneg y

end StoreHelpers

lemma vectorNorm_real (v : List ℝ) :
    vectorNorm Real.sqrt v = Real.sqrt ((v.map fun val => val * val).sum) := by
  rw [vectorNorm, foldl_add_sq]

section InvariantHelpers

variable {K : Type} [LinearOrderedField K]

lemma findIndexAux_bound (p : VectorMetadata K → Bool) :
    ∀ (l : List (VectorMetadata K)) (i r : Nat),
      findIndexAux p l i = some r → i ≤ r ∧ r < i + l.length := by
  intro l
  induction l with
  | nil => intro i r h; simp [findIndexAux] at h
  | cons m ms ih =>
    intro i r h
    by_cases hp : p m
    · simp only [findIndexAux, hp, if_true] at h
      injection h with h
      subst h
      simp
    · simp only [findIndexAux, hp, Bool.false_eq_true, if_false] at h
      have := ih (i + 1) r h
      constructor <;> [omega; (simp only [List.length_cons]; omega)]

lemma length_updateIndicesFrom (start : Nat) :
    ∀ (i : Nat) (l : List (VectorMetadata K)),
      (updateIndicesFrom start i l).length = l.length := by
  intro i l
  induction l generalizing i with
  | nil => rfl
  | cons m ms ih => simp [updateIndicesFrom, ih]

lemma getD_updateIndicesFrom (start : Nat) :
    ∀ (i j : Nat) (l : List (VectorMetadata K)) (d : VectorMetadata K), j < l.length →
      (updateIndicesFrom start i l).getD j d =
        (if start ≤ i + j then { l.getD j d with index := i + j } else l.getD j d) := by
  intro i j l
  induction l generalizing i j with
  | nil => intro d h; simp at h
  | cons m ms ih =>
    intro d h
    cases j with
    | zero => simp [updateIndicesFrom]
    | succ j' =>
      have harith : i + 1 + j' = i + (j' + 1) := by omega
      have := ih (i + 1) j' d (by simpa using h)
      simp only [updateIndicesFrom, List.getD_cons_succ, this, harith]

lemma wf_emptyStore : WellFormed (emptyStore K) := by
  simp [WellFormed, emptyStore]

lemma wf_cleanup (s : VectorStore K) : WellFormed (cleanup s) := by
  simp [WellFormed, cleanup]

lemma wf_initStore (s : VectorStore K) (d : Nat) (h : WellFormed s) :
    WellFormed (initStore s d) := by
  unfold initStore
  split <;> exact h

lemma length_initStore (s : VectorStore K) (d : Nat) :
    (initStore s d).vectors.length = s.vectors.length := by
  unfold initStore
  split <;> rfl

lemma wf_push (s : VectorStore K) (v nv : List K) (qid : String) (nrm : K)
    (hwf : WellFormed s) :
    WellFormed
      { s with
        vectors := s.vectors ++ [v],
        normalizedVectors := s.normalizedVectors ++ [nv],
        metadata := s.metadata ++ [{ id := qid, index := s.vectors.length, norm := nrm }] } := by
  obtain ⟨h1, h2, h3⟩ := hwf
  refine ⟨by simp [h1], by simp [h2], ?_⟩
  intro i hi
  simp only [List.mem_range, List.length_append, List.length_cons, List.length_nil] at hi
  by_cases hlt : i < s.metadata.length
  · rw [getD_append_lt _ _ _ _ hlt]
    exact h3 i (List.mem_range.mpr hlt)
  · have hieq : i = s.metadata.length := by omega
    subst hieq
    rw [show (s.metadata.length : Nat) = s.metadata.length + 0 from rfl, getD_append_add]
    simpa using h1

lemma addVectorsLoop_ok (sq : K → K) :
    ∀ (pairs : List (List K × String)) (s s' : VectorStore K) (i : Nat),
      addVectorsLoop sq s pairs i = .ok s' → WellFormed s →
      WellFormed s' ∧ s'.vectors.length = s.vectors.length + pairs.length := by
  intro pairs
  induction pairs with
  | nil =>
    intro s s' i h hwf
    simp only [addVectorsLoop, Except.ok.injEq] at h
    subst h
    exact ⟨hwf, by simp⟩
  | cons p rest ih =>
    intro s s' i h hwf
    obtain ⟨v, qid⟩ := p
    unfold addVectorsLoop at h
    by_cases hc : some v.length ≠ s.dimension
    · rw [if_pos hc] at h
      cases h
    · rw [if_neg hc] at h
      obtain ⟨hwf', hlen⟩ := ih _ s' (i + 1) h (wf_push s v _ qid _ hwf)
      refine ⟨hwf', ?_⟩
      rw [hlen]
      simp only [List.length_append, List.length_cons, List.length_nil]
      omega

lemma addVectors_ok (sq : K → K) (s : VectorStore K) (vs : List (List K))
    (ids : List String) (s' : VectorStore K)
    (h : addVectors sq s vs ids = .ok s') (hwf : WellFormed s) :
    WellFormed s' ∧ s'.vectors.length = s.vectors.length + vs.length := by
  unfold addVectors at h
  by_cases h1 : s.isInitialized = false
  · rw [if_pos h1] at h; cases h
  · rw [if_neg h1] at h
    by_cases h2 : vs.length ≠ ids.length
    · rw [if_pos h2] at h; cases h
    · rw [if_neg h2] at h
      obtain ⟨hwf', hlen⟩ := addVectorsLoop_ok sq (vs.zip ids) s s' 0 h hwf
      refine ⟨hwf', ?_⟩
      rw [hlen, List.length_zip, not_not.mp h2, min_self]

lemma removeVector_ok (s : VectorStore K) (qid : String) (s' : VectorStore K)
    (h : removeVector s qid = .ok s') (hwf : WellFormed s) :
    WellFormed s' ∧ s'.vectors.length + 1 = s.vectors.length := by
  obtain ⟨h1, h2, h3⟩ := hwf
  unfold removeVector at h
  cases hfi : findIndex (fun meta => meta.id == qid) s.metadata with
  | none => rw [hfi] at h; cases h
  | some idx =>
    rw [hfi] at h
    injection h with h
    subst h
    have hidx : idx < s.metadata.length := by
      have := findIndexAux_bound (fun meta => meta.id == qid) s.metadata 0 idx hfi
      omega
    have hlen1 : (s.vectors.eraseIdx idx).length = s.vectors.length - 1 :=
      List.length_eraseIdx_of_lt (by omega)
    have hlen2 : (s.normalizedVectors.eraseIdx idx).length = s.metadata.length - 1 := by
      rw [List.length_eraseIdx_of_lt (by omega), h2]
    have hlen3 : (updateIndicesFrom idx 0 (s.metadata.eraseIdx idx)).length =
        s.metadata.length - 1 := by
      rw [length_updateIndicesFrom, List.length_eraseIdx_of_lt hidx]
    refine ⟨⟨by rw [hlen1, hlen3, h1], by rw [hlen2, hlen3], ?_⟩, by simp [hlen1]; omega⟩
    intro j hj
    rw [hlen3] at hj
    have hj' : j < (s.metadata.eraseIdx idx).length := by
      rw [List.length_eraseIdx_of_lt hidx]
      exact List.mem_range.mp hj
    rw [getD_updateIndicesFrom idx 0 j _ mdDefault hj']
    by_cases hle : idx ≤ j
    · rw [if_pos (by omega : idx ≤ 0 + j)]
      simp
    · rw [if_neg (by omega : ¬ idx ≤ 0 + j), getD_eraseIdx_lt _ _ _ _ (by omega)]
      exact h3 j (List.mem_range.mpr (by omega))

lemma updateVector_ok (sq : K → K) (s : VectorStore K) (qid : String) (v : List K)
    (s' : VectorStore K) (h : updateVector sq s qid v = .ok s') (hwf : WellFormed s) :
    WellFormed s' ∧ s'.vectors.length = s.vectors.length := by
  obtain ⟨h1, h2, h3⟩ := hwf
  unfold updateVector at h
  cases hfi : findIndex (fun meta => meta.id == qid) s.metadata with
  | none => rw [hfi] at h; cases h
  | some idx =>
    rw [hfi] at h
    replace h : (if some v.length ≠ s.dimension then
        (.error (.newVectorDimensionMismatch s.dimension v.length, s) :
          VSResult K (VectorStore K))
      else .ok
        { s with
          vectors := s.vectors.set idx v,
          normalizedVectors := s.normalizedVectors.set idx (normalizeVector sq v),
          metadata := s.metadata.set idx
            { s.metadata.getD idx mdDefault with norm := vectorNorm sq v } }) =
        .ok s' := h
    by_cases hdim : some v.length ≠ s.dimension
    · rw [if_pos hdim] at h; cases h
    · rw [if_neg hdim] at h
      injection h with h
      subst h
      have hidx : idx < s.metadata.length := by
        have := findIndexAux_bound (fun meta => meta.id == qid) s.metadata 0 idx hfi
        omega
      refine ⟨⟨by simp [h1], by simp [h2], ?_⟩, by simp⟩
      intro j hj
      simp only [List.length_set] at hj
      by_cases hje : j = idx
      · subst hje
        rw [getD_set_self _ _ _ _ hidx]
        exact h3 j hj
      · rw [getD_set_ne _ _ _ _ _ hje]
        exact h3 j hj

end InvariantHelpers

section SortHelpers

variable {K : Type} [LinearOrderedField K]

lemma insertDesc_perm (x : SimEntry K) (l : List (SimEntry K)) :
    List.Perm (insertDesc x l) (x :: l) := by
  induction l with
  | nil => exact List.Perm.refl _
  | cons y ys ih =>
    unfold insertDesc
    split
    · exact List.Perm.refl _
    · exact (List.Perm.cons y ih).trans (List.Perm.swap x y ys)

lemma mem_insertDesc (x z : SimEntry K) (l : List (SimEntry K)) :
    z ∈ insertDesc x l ↔ z = x ∨ z ∈ l := by
  rw [(insertDesc_perm x l).mem_iff, List.mem_cons]

lemma insertDesc_sortedLex (x : SimEntry K) (l : List (SimEntry K))
    (hl : l.Pairwise lexBefore) (hx : ∀ y ∈ l, y.index < x.index) :
    (insertDesc x l).Pairwise lexBefore := by
  induction l with
  | nil => simp [insertDesc, lexBefore]
  | cons y ys ih =>
    rw [List.pairwise_cons] at hl
    obtain ⟨hy, hys⟩ := hl
    unfold insertDesc
    split
    · rename_i hlt
      refine List.pairwise_cons.mpr ⟨?_, List.pairwise_cons.mpr ⟨hy, hys⟩⟩
      intro z hz
      rcases List.mem_cons.mp hz with hz | hz
      · subst hz
        exact Or.inl hlt
      · left
        rcases hy z hz with h' | h'
        · exact lt_trans h' hlt
        · exact h'.1 ▸ hlt
    · rename_i hnlt
      refine List.pairwise_cons.mpr
        ⟨?_, ih hys (fun z hz => hx z (List.mem_cons_of_mem y hz))⟩
      intro z hz
      rcases (mem_insertDesc x z ys).mp hz with hz | hz
      · subst hz
        rcases lt_or_eq_of_le (le_of_not_lt hnlt) with h' | h'
        · exact Or.inl h'
        · exact Or.inr ⟨h', hx y (List.mem_cons_self y ys)⟩
      · exact hy z hz

lemma foldl_insertDesc_perm :
    ∀ (l acc : List (SimEntry K)),
      List.Perm (l.foldl (fun sorted x => insertDesc x sorted) acc) (l ++ acc) := by
  intro l
  induction l with
  | nil => intro acc; simp
  | cons x l' ih =>
    intro acc
    simp only [List.foldl_cons, List.cons_append]
    refine (ih (insertDesc x acc)).trans ?_
    exact (List.Perm.append_left l' (insertDesc_perm x acc)).trans List.perm_middle

lemma foldl_insertDesc_sorted :
    ∀ (l acc : List (SimEntry K)),
      acc.Pairwise lexBefore →
      (∀ x ∈ l, ∀ y ∈ acc, y.index < x.index) →
      l.Pairwise (fun a b => a.index < b.index) →
      (l.foldl (fun sorted x => insertDesc x sorted) acc).Pairwise lexBefore := by
  intro l
  induction l with
  | nil => intro acc h _ _; exact h
  | cons x l' ih =>
    intro acc hacc hcross hl
    rw [List.pairwise_cons] at hl
    obtain ⟨hxl, hl'⟩ := hl
    simp only [List.foldl_cons]
    refine ih (insertDesc x acc)
      (insertDesc_sortedLex x acc hacc
        (fun y hy => hcross x (List.mem_cons_self _ _) y hy)) ?_ hl'
    intro z hz y hy
    rcases (mem_insertDesc x y acc).mp hy with hy | hy
    · subst hy
      exact hxl z hz
    · exact hcross z (List.mem_cons_of_mem _ hz) y hy

lemma sortDesc_perm (l : List (SimEntry K)) : List.Perm (sortDesc l) l := by
  have := foldl_insertDesc_perm l []
  simpa [sortDesc] using this

lemma sortDesc_sorted (l : List (SimEntry K))
    (hl : l.Pairwise (fun a b => a.index < b.index)) :
    (sortDesc l).Pairwise lexBefore :=
  foldl_insertDesc_sorted l [] List.Pairwise.nil (by simp) hl

lemma searchEntries_indices (nq : List K) (s : VectorStore K) :
    (searchEntries nq s).Pairwise (fun a b => a.index < b.index) := by
  unfold searchEntries
  rw [List.pairwise_map]
  exact List.pairwise_lt_range _

lemma searchEntries_length (nq : List K) (s : VectorStore K) :
    (searchEntries nq s).length = s.normalizedVectors.length := by
  simp [searchEntries]

end SortHelpers

lemma vectorNorm_real_34 : vectorNorm Real.sqrt ([3, 4] : List ℝ) ≠ 0 := by
  simp only [vectorNorm, List.foldl_cons, List.foldl_nil]
  rw [show ((0 : ℝ) + 3 * 3 + 4 * 4) = 25 by norm_num]
  exact Real.sqrt_ne_zero'.mpr (by norm_num)

/-- C8: `initialize` is idempotent — on an already-initialized store a
second call with any dimension returns the store entirely unchanged; in
particular the stored dimension is neither re-validated nor updated. -/
theorem initStore_idempotent {K : Type} [LinearOrderedField K]
    (s : VectorStore K) (d' : Nat) (h : s.isInitialized = true) :
    initStore s d' = s := by
  simp [initStore, h]

/-- Witness for `initStore_idempotent` at a concrete initialized store. -/
theorem initStore_idempotent_witness :
    initStore (initStore (emptyStore ℚ) 2) 5 = initStore (emptyStore ℚ) 2 :=
  initStore_idempotent (initStore (emptyStore ℚ) 2) 5 (by simp [initStore, emptyStore])

/-- C7: `search` on an initialized store with a dimension-matching query
leaves the entire store state unchanged: it returns its results alongside
the very store it was given — collections, dimension and flag included. -/
theorem search_preserves_state {K : Type} [LinearOrderedField K]
    (sq : K → K) (s : VectorStore K) (q : List K) (k : Nat)
    (h1 : s.isInitialized = true) (h2 : some q.length = s.dimension) :
    ∃ r, search sq s q k = .ok (r, s) := by
  refine ⟨(partialSort (searchEntries (normalizeVector sq q) s) k).map
    (fun r => { id := r.id, score := r.similarity, distance := 1 - r.similarity }), ?_⟩
  simp [search, h1, h2]

/-- Witness for `search_preserves_state` at a concrete store and query. -/
theorem search_preserves_state_witness :
    ∃ r, search (fun _ => 1) demoStore1 [3] 4 = .ok (r, demoStore1) :=
  search_preserves_state (fun _ => 1) demoStore1 [3] 4 rfl rfl

/-- C10: `removeVector` and `updateVector` perform no initialization check:
on any store whose metadata collection is empty — a never-initialized fresh
store or one just cleaned up — they fail with the not-found error, never
the not-initialized error. -/
theorem remove_update_no_init_check {K : Type} [LinearOrderedField K]
    (sq : K → K) (s : VectorStore K) (qid : String) (v : List K)
    (h : s.metadata = []) :
    removeVector s qid = .error (.queryIdNotFound qid, s) ∧
    updateVector sq s qid v = .error (.queryIdNotFound qid, s) := by
  constructor
  · simp [removeVector, findIndex, h, findIndexAux]
  · simp [updateVector, findIndex, h, findIndexAux]

/-- Witness for `remove_update_no_init_check` on a fresh store and on a
cleaned-up store. -/
theorem remove_update_no_init_check_witness :
    (removeVector (emptyStore ℚ) "x" = .error (.queryIdNotFound "x", emptyStore ℚ) ∧
      updateVector (fun _ => 1) (emptyStore ℚ) "x" [5] =
        .error (.queryIdNotFound "x", emptyStore ℚ)) ∧
    (removeVector (cleanup demoStore1) "x" =
        .error (.queryIdNotFound "x", cleanup demoStore1) ∧
      updateVector (fun _ => 1) (cleanup demoStore1) "x" [5] =
        .error (.queryIdNotFound "x", cleanup demoStore1)) :=
  ⟨remove_update_no_init_check (fun _ => 1) (emptyStore ℚ) "x" [5] rfl,
   remove_update_no_init_check (fun _ => 1) (cleanup demoStore1) "x" [5] rfl⟩

lemma addVectorsLoop_firstBad {K : Type} [LinearOrderedField K] (sq : K → K) (d : Option Nat) :
    ∀ (gp : List (List K × String)) (s : VectorStore K) (bad : List K) (bid : String)
      (rp : List (List K × String)) (i : Nat),
      s.dimension = d →
      (∀ p ∈ gp, some p.1.length = d) →
      some bad.length ≠ d →
      addVectorsLoop sq s (gp ++ (bad, bid) :: rp) i =
        .error (.vectorDimensionMismatch (i + gp.length) d bad.length,
          { s with
            vectors := s.vectors ++ gp.map Prod.fst,
            normalizedVectors := s.normalizedVectors ++
              gp.map (fun p => normalizeVector sq p.1),
            metadata := s.metadata ++ addedMetadata sq s.vectors.length gp }) := by
  intro gp
  induction gp with
  | nil =>
    intro s bad bid rp i hd hgood hbad
    subst hd
    simp only [List.nil_append, addVectorsLoop, List.map_nil, List.append_nil, addedMetadata]
    rw [if_pos hbad]
    simp
  | cons p gp' ih =>
    intro s bad bid rp i hd hgood hbad
    obtain ⟨v, qid⟩ := p
    have hv : some v.length = d := hgood (v, qid) (List.mem_cons_self _ _)
    simp only [List.cons_append, addVectorsLoop]
    rw [if_neg (by rw [hd]; exact not_not_intro hv)]
    simp only [List.append_eq]
    rw [ih _ bad bid rp (i + 1) (by simp [hd]) (fun x hx => hgood x (List.mem_cons_of_mem _ hx)) hbad]
    simp only [Except.error.injEq, Prod.mk.injEq, VectorStore.mk.injEq, List.map_cons,
      addedMetadata, List.append_assoc, List.singleton_append, List.length_cons,
      List.length_append, List.length_nil, VSError.vectorDimensionMismatch.injEq,
      and_true, true_and]
    omega

lemma addVectorsLoop_all_good {K : Type} [LinearOrderedField K] (sq : K → K) :
    ∀ (gp : List (List K × String)) (s : VectorStore K) (i : Nat),
      (∀ p ∈ gp, some p.1.length = s.dimension) →
      addVectorsLoop sq s gp i = .ok
        { s with
          vectors := s.vectors ++ gp.map Prod.fst,
          normalizedVectors := s.normalizedVectors ++
            gp.map (fun p => normalizeVector sq p.1),
          metadata := s.metadata ++ addedMetadata sq s.vectors.length gp } := by
  intro gp
  induction gp with
  | nil =>
    intro s i _
    simp [addVectorsLoop, addedMetadata]
  | cons p gp' ih =>
    intro s i hgood
    obtain ⟨v, qid⟩ := p
    have hv : some v.length = s.dimension := hgood (v, qid) (List.mem_cons_self _ _)
    simp only [addVectorsLoop]
    rw [if_neg (not_not_intro hv)]
    rw [ih
      { s with
        vectors := s.vectors ++ [v],
        normalizedVectors := s.normalizedVectors ++ [normalizeVector sq v],
        metadata := s.metadata ++
          [{ id := qid, index := s.vectors.length, norm := vectorNorm sq v }] }
      (i + 1) (fun x hx => hgood x (List.mem_cons_of_mem _ hx))]
    simp only [Except.ok.injEq, VectorStore.mk.injEq, List.map_cons, addedMetadata,
      List.append_assoc, List.singleton_append, List.length_append, List.length_cons,
      List.length_nil, and_true, true_and]

/-- C3: the error behavior of `addVectors` — an uninitialized store fails
with the not-initialized error and nothing added; mismatched batch lengths
fail with the count-mismatch error and nothing added; and when the first
dimension-mismatching vector of the batch sits at position `good.length`,
the call fails with a dimension-mismatch error naming that position and the
expected and actual lengths, with every earlier vector of the batch fully
added to all three collections and the offending vector leaving no partial
state in any of them. -/
theorem addVectors_error_cases {K : Type} [LinearOrderedField K] (sq : K → K)
    (s : VectorStore K) (vs : List (List K)) (ids : List String) :
    (s.isInitialized = false → addVectors sq s vs ids = .error (.notInitialized, s)) ∧
    (s.isInitialized = true → vs.length ≠ ids.length →
      addVectors sq s vs ids = .error (.countMismatch, s)) ∧
    (∀ (good : List (List K)) (gids : List String) (bad : List K) (bid : String)
      (rest : List (List K)) (rids : List String),
      s.isInitialized = true →
      vs = good ++ bad :: rest → ids = gids ++ bid :: rids →
      good.length = gids.length → rest.length = rids.length →
      (∀ v ∈ good, some v.length = s.dimension) →
      some bad.length ≠ s.dimension →
      addVectors sq s vs ids =
        .error (.vectorDimensionMismatch good.length s.dimension bad.length,
          { s with
            vectors := s.vectors ++ good,
            normalizedVectors := s.normalizedVectors ++ good.map (normalizeVector sq),
            metadata := s.metadata ++
              addedMetadata sq s.vectors.length (good.zip gids) })) := by
  refine ⟨?_, ?_, ?_⟩
  · intro h
    simp [addVectors, h]
  · intro h1 h2
    simp [addVectors, h1, h2]
  · intro good gids bad bid rest rids h1 hvs hids hlg hlr hgood hbad
    subst hvs
    subst hids
    have hlen : (good ++ bad :: rest).length = (gids ++ bid :: rids).length := by
      simp [hlg, hlr]
    rw [addVectors, if_neg (by simp [h1]), if_neg (not_not_intro hlen)]
    rw [List.zip_append hlg, List.zip_cons_cons]
    have hgp : ∀ p ∈ good.zip gids, some p.1.length = s.dimension := by
      intro p hp
      exact hgood p.1 (List.of_mem_zip hp).1
    rw [addVectorsLoop_firstBad sq s.dimension (good.zip gids) s bad bid
      (rest.zip rids) 0 rfl hgp hbad]
    have hfst : (good.zip gids).map Prod.fst = good :=
      List.map_fst_zip good gids (le_of_eq hlg)
    have hnorm : (good.zip gids).map (fun p => normalizeVector sq p.1) =
        good.map (normalizeVector sq) := by
      rw [show (fun p : List K × String => normalizeVector sq p.1) =
        (normalizeVector sq) ∘ Prod.fst from rfl, ← List.map_map, hfst]
    rw [hfst, hnorm]
    have hzlen : (good.zip gids).length = good.length := by
      simp [List.length_zip, hlg]
    rw [hzlen]
    simp

/-- Witness for `addVectors_error_cases`: the three error cases at concrete
stores and batches; in the third the dimension-1 store accepts `[1]` and
then rejects `[2, 3]` at position 1, keeping `[1]` in all collections. -/
theorem addVectors_error_cases_witness :
    (addVectors (fun _ => (1 : ℚ)) (emptyStore ℚ) [[1]] ["a"] =
      .error (.notInitialized, emptyStore ℚ)) ∧
    (addVectors (fun _ => (1 : ℚ)) demoStore1 [[1]] [] =
      .error (.countMismatch, demoStore1)) ∧
    (addVectors (fun _ => (1 : ℚ)) demoStore1 [[1], [2, 3]] ["a", "b"] =
      .error (.vectorDimensionMismatch 1 (some 1) 2,
        { demoStore1 with
          vectors := demoStore1.vectors ++ [[1]],
          normalizedVectors := demoStore1.normalizedVectors ++
            [[1]].map (normalizeVector (fun _ => 1)),
          metadata := demoStore1.metadata ++
            addedMetadata (fun _ => 1) demoStore1.vectors.length ([[1]].zip ["a"]) })) :=
  ⟨(addVectors_error_cases (fun _ => 1) (emptyStore ℚ) [[1]] ["a"]).1 rfl,
   (addVectors_error_cases (fun _ => 1) demoStore1 [[1]] []).2.1 rfl (by decide),
   (addVectors_error_cases (fun _ => 1) demoStore1 [[1], [2, 3]] ["a", "b"]).2.2
     [[1]] ["a"] [2, 3] "b" [] [] rfl rfl rfl rfl rfl
     (by intro v hv; simp at hv; subst hv; rfl) (by decide)⟩

/-- C9: `updateVector` fails with the not-found error (store untouched)
when no metadata record carries the id; with the first matching record at
position `idx`, it fails with the dimension-mismatch error (store
untouched) when the new vector's length disagrees with the dimension, and
otherwise succeeds, replacing exactly the raw vector, normalized vector and
cached norm at `idx` — computed from the new vector — while preserving the
record's id and position, the collection lengths, and every other
position in all three collections. -/
theorem updateVector_spec {K : Type} [LinearOrderedField K] (sq : K → K)
    (s : VectorStore K) (qid : String) (v : List K) :
    ((∀ m ∈ s.metadata, m.id ≠ qid) →
      updateVector sq s qid v = .error (.queryIdNotFound qid, s)) ∧
    (∀ idx : Nat, idx < s.metadata.length →
      (s.metadata.getD idx mdDefault).id = qid →
      (∀ j < idx, (s.metadata.getD j mdDefault).id ≠ qid) →
      (some v.length ≠ s.dimension →
        updateVector sq s qid v =
          .error (.newVectorDimensionMismatch s.dimension v.length, s)) ∧
      (some v.length = s.dimension → WellFormed s →
        ∃ s', updateVector sq s qid v = .ok s' ∧
          s'.dimension = s.dimension ∧
          s'.isInitialized = s.isInitialized ∧
          s'.vectors.length = s.vectors.length ∧
          s'.normalizedVectors.length = s.normalizedVectors.length ∧
          s'.metadata.length = s.metadata.length ∧
          s'.vectors.getD idx [] = v ∧
          s'.normalizedVectors.getD idx [] = normalizeVector sq v ∧
          (s'.metadata.getD idx mdDefault).id = (s.metadata.getD idx mdDefault).id ∧
          (s'.metadata.getD idx mdDefault).index = (s.metadata.getD idx mdDefault).index ∧
          (s'.metadata.getD idx mdDefault).norm = vectorNorm sq v ∧
          (∀ j, j ≠ idx →
            s'.vectors.getD j [] = s.vectors.getD j [] ∧
            s'.normalizedVectors.getD j [] = s.normalizedVectors.getD j [] ∧
            s'.metadata.getD j mdDefault = s.metadata.getD j mdDefault))) := by
  constructor
  · intro h
    have hfi : findIndexAux (fun meta => meta.id == qid) s.metadata 0 = none :=
      findIndexAux_eq_none _ _ 0 (fun m hm => beq_eq_false_iff_ne.mpr (h m hm))
    unfold updateVector findIndex
    rw [hfi]
  · intro idx hlt hid hfirst
    have hfi : findIndexAux (fun meta => meta.id == qid) s.metadata 0 = some idx := by
      have := findIndexAux_first (fun meta => meta.id == qid) mdDefault s.metadata idx 0
        hlt (beq_iff_eq.mpr hid) (fun j hj => beq_eq_false_iff_ne.mpr (hfirst j hj))
      simpa using this
    have hfi' : findIndex (fun meta => meta.id == qid) s.metadata = some idx := hfi
    have hupd : updateVector sq s qid v =
        (if some v.length ≠ s.dimension then
          .error (.newVectorDimensionMismatch s.dimension v.length, s)
        else .ok
          { s with
            vectors := s.vectors.set idx v,
            normalizedVectors := s.normalizedVectors.set idx (normalizeVector sq v),
            metadata := s.metadata.set idx
              { s.metadata.getD idx mdDefault with norm := vectorNorm sq v } }) := by
      unfold updateVector
      rw [hfi']
    constructor
    · intro hdim
      rw [hupd, if_pos hdim]
    · intro hdim hwf
      rw [hupd, if_neg (not_not_intro hdim)]
      refine ⟨_, rfl, rfl, rfl, by simp, by simp, by simp, ?_, ?_, ?_, ?_, ?_, ?_⟩
      · exact getD_set_self _ _ _ _ (hwf.1 ▸ hlt)
      · exact getD_set_self _ _ _ _ (hwf.2.1 ▸ hlt)
      · rw [getD_set_self _ _ _ _ hlt]
      · rw [getD_set_self _ _ _ _ hlt]
      · rw [getD_set_self _ _ _ _ hlt]
      · intro j hj
        exact ⟨getD_set_ne _ _ _ _ _ hj, getD_set_ne _ _ _ _ _ hj,
          getD_set_ne _ _ _ _ _ hj⟩

/-- Witness for `updateVector_spec` on a concrete dimension-1 store:
not-found, dimension-mismatch, and successful in-place replacement. -/
theorem updateVector_spec_witness :
    updateVector (fun _ => (1 : ℚ)) demoStore1 "y" [5] =
      .error (.queryIdNotFound "y", demoStore1) ∧
    updateVector (fun _ => (1 : ℚ)) demoStore1 "x" [1, 2] =
      .error (.newVectorDimensionMismatch (some 1) 2, demoStore1) ∧
    ∃ s', updateVector (fun _ => (1 : ℚ)) demoStore1 "x" [5] = .ok s' ∧
      s'.vectors.getD 0 [] = [5] := by
  refine ⟨?_, ?_, ?_⟩
  · exact (updateVector_spec (fun _ => 1) demoStore1 "y" [5]).1 (by simp [demoStore1])
  · exact ((updateVector_spec (fun _ => 1) demoStore1 "x" [1, 2]).2 0 Nat.one_pos rfl
      (fun j hj => absurd hj (Nat.not_lt_zero j))).1 (by simp [demoStore1])
  · obtain ⟨s', h1, _, _, _, _, _, hv, _⟩ :=
      ((updateVector_spec (fun _ => 1) demoStore1 "x" [5]).2 0 Nat.one_pos rfl
        (fun j hj => absurd hj (Nat.not_lt_zero j))).2 rfl (by decide)
    exact ⟨s', h1, hv⟩

/-- C4 counterexample: from a fresh store, `initialize 1`, a successful
`addVectors` of one vector, and then `cleanup` reach a state where one
vector was ever added and none removed, yet `getInfo().vectorCount` is `0`,
not `1 - 0`: with `cleanup` among the allowed operations, the claimed count
equation fails, because `cleanup` discards every record without touching
the add/remove history. -/
theorem vectorCount_after_cleanup_cex :
    ReachedTotal (fun _ => (1 : ℚ)) (cleanup demoStore2) 1 0 ∧
    (getInfo (cleanup demoStore2)).vectorCount ≠ 1 - 0 := by
  have hadd : addVectors (fun _ => (1 : ℚ)) (initStore (emptyStore ℚ) 1) [[2]] ["a"] =
      .ok demoStore2 := by
    norm_num [addVectors, addVectorsLoop, initStore, emptyStore, normalizeVector,
      vectorNorm, demoStore2]
  have h0 : ReachedTotal (fun _ => (1 : ℚ)) (emptyStore ℚ) 0 0 := ReachedTotal.fresh
  have h1 := ReachedTotal.doInit (emptyStore ℚ) 0 0 1 h0
  have h2 := ReachedTotal.doAdd (initStore (emptyStore ℚ) 1) demoStore2 0 0 [[2]] ["a"] h1 hadd
  have h3 := ReachedTotal.doCleanup demoStore2 (0 + [[2]].length) 0 h2
  exact ⟨by simpa using h3, by simp [getInfo, cleanup]⟩

/-- C4 (amended): after every sequence of successful operations from a
fresh store, the three collections are equally long, the metadata record at
position `i` carries `index = i`, and `getInfo().vectorCount` equals the
number of vectors successfully added minus the number removed since the
most recent `cleanup` (which discards all records and so resets the count
to zero); stated additively to avoid truncated subtraction. -/
theorem reachable_wellFormed_count {K : Type} [LinearOrderedField K] (sq : K → K)
    (s : VectorStore K) (a r : Nat) (h : ReachedSinceCleanup sq s a r) :
    WellFormed s ∧ (getInfo s).vectorCount + r = a := by
  induction h with
  | fresh => exact ⟨wf_emptyStore, rfl⟩
  | doInit s a r d _ ih =>
    refine ⟨wf_initStore s d ih.1, ?_⟩
    have : (getInfo (initStore s d)).vectorCount = (getInfo s).vectorCount := by
      simp [getInfo, length_initStore]
    rw [this]
    exact ih.2
  | doAdd s s' a r vs ids _ hok ih =>
    obtain ⟨hwf', hlen⟩ := addVectors_ok sq s vs ids s' hok ih.1
    refine ⟨hwf', ?_⟩
    have h2 := ih.2
    simp only [getInfo] at h2 ⊢
    omega
  | doRemove s s' a r qid _ hok ih =>
    obtain ⟨hwf', hlen⟩ := removeVector_ok s qid s' hok ih.1
    refine ⟨hwf', ?_⟩
    have h2 := ih.2
    simp only [getInfo] at h2 ⊢
    omega
  | doUpdate s s' a r qid v _ hok ih =>
    obtain ⟨hwf', hlen⟩ := updateVector_ok sq s qid v s' hok ih.1
    refine ⟨hwf', ?_⟩
    have h2 := ih.2
    simp only [getInfo] at h2 ⊢
    omega
  | doCleanup s a r _ _ =>
    exact ⟨wf_cleanup s, by simp [getInfo, cleanup]⟩

/-- Witness for `reachable_wellFormed_count`: the state reached by
`initialize 1` then adding one vector is well-formed and its count is 1. -/
theorem reachable_wellFormed_count_witness :
    WellFormed demoStore2 ∧ (getInfo demoStore2).vectorCount + 0 = 1 := by
  have hadd : addVectors (fun _ => (1 : ℚ)) (initStore (emptyStore ℚ) 1) [[2]] ["a"] =
      .ok demoStore2 := by
    norm_num [addVectors, addVectorsLoop, initStore, emptyStore, normalizeVector,
      vectorNorm, demoStore2]
  have h0 : ReachedSinceCleanup (fun _ => (1 : ℚ)) (emptyStore ℚ) 0 0 :=
    ReachedSinceCleanup.fresh
  have h1 := ReachedSinceCleanup.doInit (emptyStore ℚ) 0 0 1 h0
  have h2 := ReachedSinceCleanup.doAdd (initStore (emptyStore ℚ) 1) demoStore2 0 0
    [[2]] ["a"] h1 hadd
  exact reachable_wellFormed_count (fun _ => (1 : ℚ)) demoStore2 1 0 (by simpa using h2)

/-- C5: `normalizeVector` returns its argument unchanged when the L2 norm
is zero (in particular on `[0,0,0]`), and otherwise divides every component
by the L2 norm `sqrt` of the sum of squared components. -/
theorem normalizeVector_spec (v : List ℝ) :
    (vectorNorm Real.sqrt v = 0 → normalizeVector Real.sqrt v = v) ∧
    (vectorNorm Real.sqrt v ≠ 0 →
      normalizeVector Real.sqrt v =
        v.map fun x => x / Real.sqrt ((v.map fun y => y * y).sum)) ∧
    normalizeVector Real.sqrt ([0, 0, 0] : List ℝ) = [0, 0, 0] := by
  have hz : vectorNorm Real.sqrt ([0, 0, 0] : List ℝ) = 0 := by
    simp [vectorNorm]
  refine ⟨?_, ?_, ?_⟩
  · intro h
    simp [normalizeVector, h]
  · intro h
    simp only [normalizeVector, h, if_false]
    simp [vectorNorm_real]
  · simp [normalizeVector, hz]

/-- Witness for `normalizeVector_spec`: the zero branch at `[0,0,0]` and
the scaling branch at `[3,4]`. -/
theorem normalizeVector_spec_witness :
    (vectorNorm Real.sqrt ([0, 0, 0] : List ℝ) = 0 ∧
      normalizeVector Real.sqrt ([0, 0, 0] : List ℝ) = [0, 0, 0]) ∧
    (vectorNorm Real.sqrt ([3, 4] : List ℝ) ≠ 0 ∧
      normalizeVector Real.sqrt ([3, 4] : List ℝ) =
        [3, 4].map fun x => x / Real.sqrt (([3, 4].map fun y => y * y) : List ℝ).sum) := by
  have hz : vectorNorm Real.sqrt ([0, 0, 0] : List ℝ) = 0 := by
    simp [vectorNorm]
  exact ⟨⟨hz, (normalizeVector_spec [0, 0, 0]).1 hz⟩,
    ⟨vectorNorm_real_34, (normalizeVector_spec [3, 4]).2.1 vectorNorm_real_34⟩⟩

/-- C6: normalization is idempotent on every vector of nonzero norm (over
exact real arithmetic): normalizing an already-normalized vector returns it
unchanged. -/
theorem normalizeVector_idempotent (v : List ℝ) (h : vectorNorm Real.sqrt v ≠ 0) :
    normalizeVector Real.sqrt (normalizeVector Real.sqrt v) = normalizeVector Real.sqrt v := by
  have hS0 : 0 ≤ (v.map fun val => val * val).sum := sum_sq_nonneg v
  have hn : vectorNorm Real.sqrt v = Real.sqrt ((v.map fun val => val * val).sum) :=
    vectorNorm_real v
  have hSpos : 0 < (v.map fun val => val * val).sum := by
    rcases lt_or_eq_of_le hS0 with h' | h'
    · exact h'
    · exact absurd (by rw [hn, ← h', Real.sqrt_zero]) h
  have hSne : (v.map fun val => val * val).sum ≠ 0 := ne_of_gt hSpos
  have hne : Real.sqrt ((v.map fun val => val * val).sum) ≠ 0 :=
    ne_of_gt (Real.sqrt_pos.mpr hSpos)
  have hnv : normalizeVector Real.sqrt v =
      v.map fun x => x / Real.sqrt ((v.map fun val => val * val).sum) := by
    rw [normalizeVector]
    simp only [hn, hne, if_false]
  have hw : vectorNorm Real.sqrt (normalizeVector Real.sqrt v) = 1 := by
    rw [hnv, vectorNorm_real, List.map_map]
    have hfun : ((fun val => val * val) ∘
        fun x => x / Real.sqrt ((v.map fun val => val * val).sum)) =
        fun x => (x * x) *
          (Real.sqrt ((v.map fun val => val * val).sum) *
            Real.sqrt ((v.map fun val => val * val).sum))⁻¹ := by
      funext x
      simp only [Function.comp, div_eq_mul_inv, mul_inv]
      ring
    rw [hfun, List.sum_map_mul_right, Real.mul_self_sqrt hS0, mul_inv_cancel₀ hSne,
      Real.sqrt_one]
  rw [show normalizeVector Real.sqrt (normalizeVector Real.sqrt v) =
      (if vectorNorm Real.sqrt (normalizeVector Real.sqrt v) = 0 then
        normalizeVector Real.sqrt v
      else (normalizeVector Real.sqrt v).map
        (fun val => val / vectorNorm Real.sqrt (normalizeVector Real.sqrt v))) from rfl]
  rw [hw]
  simp

/-- Witness for `normalizeVector_idempotent` at the nonzero vector `[3,4]`. -/
theorem normalizeVector_idempotent_witness :
    normalizeVector Real.sqrt (normalizeVector Real.sqrt ([3, 4] : List ℝ)) =
      normalizeVector Real.sqrt ([3, 4] : List ℝ) :=
  normalizeVector_idempotent [3, 4] vectorNorm_real_34

/-- C1: on an initialized well-formed store, a dimension-matching query and
positive `k`, `search` succeeds without touching the store and returns
exactly `min k n` results obtained by taking the first `k` entries of the
unique enumeration of all similarity entries ordered by strictly descending
similarity with ties broken by ascending insertion position, each formatted
as `{id, score = similarity, distance = 1 - similarity}` — hence scores are
descending and every distance is one minus its score; and in the concrete
dimension-2 instance `A=[1,0], B=[0,1], C=[0.9,0.1]` under ids `a,b,c`,
`search([1,0], 2)` returns the ids `[a, c]` in that order. -/
theorem search_topk_spec :
    (∀ (K : Type) [LinearOrderedField K] (sq : K → K) (s : VectorStore K)
      (q : List K) (k : Nat),
      WellFormed s → s.isInitialized = true → some q.length = s.dimension → 0 < k →
      ∃ sortedAll results,
        List.Perm sortedAll (searchEntries (normalizeVector sq q) s) ∧
        sortedAll.Pairwise lexBefore ∧
        search sq s q k = .ok (results, s) ∧
        results = (sortedAll.take k).map
          (fun r => { id := r.id, score := r.similarity, distance := 1 - r.similarity }) ∧
        results.length = min k s.metadata.length ∧
        results.Pairwise (fun x y => y.score ≤ x.score) ∧
        (∀ e ∈ results, e.distance = 1 - e.score)) ∧
    (∃ (s3 : VectorStore ℝ) (results : List (SearchResult ℝ)),
      addVectors Real.sqrt (initStore (emptyStore ℝ) 2)
        [[1, 0], [0, 1], [9/10, 1/10]] ["a", "b", "c"] = .ok s3 ∧
      search Real.sqrt s3 [1, 0] 2 = .ok (results, s3) ∧
      results.map SearchResult.id = ["a", "c"]) := by
  constructor
  · intro K _ sq s q k hwf h1 h2 hk
    refine ⟨sortDesc (searchEntries (normalizeVector sq q) s), _,
      sortDesc_perm _, sortDesc_sorted _ (searchEntries_indices _ _), ?_, rfl, ?_, ?_, ?_⟩
    · simp [search, h1, h2, partialSort]
    · rw [List.length_map, List.length_take, (sortDesc_perm _).length_eq,
        searchEntries_length, hwf.2.1]
    · rw [List.pairwise_map]
      refine List.Pairwise.imp ?_
        ((sortDesc_sorted _ (searchEntries_indices _ _)).sublist (List.take_sublist k _))
      intro a b hab
      rcases hab with h' | h'
      · exact le_of_lt h'
      · exact le_of_eq h'.1
    · intro e he
      obtain ⟨x, _, hx⟩ := List.mem_map.mp he
      rw [← hx]
  · have hs41 : (0 : ℝ) < Real.sqrt (41/50) := Real.sqrt_pos.mpr (by norm_num)
    have hsne : Real.sqrt ((41 : ℝ)/50) ≠ 0 := ne_of_gt hs41
    have hcle : (9/10 : ℝ) / Real.sqrt (41/50) ≤ 1 := by
      rw [div_le_one hs41]
      exact (Real.le_sqrt (by norm_num) (by norm_num)).mpr (by norm_num)
    have hcpos : (0 : ℝ) < 9/10 / Real.sqrt (41/50) := div_pos (by norm_num) hs41
    have hn10 : vectorNorm Real.sqrt ([1, 0] : List ℝ) = 1 := by
      simp only [vectorNorm, List.foldl_cons, List.foldl_nil]
      norm_num
    have hn01 : vectorNorm Real.sqrt ([0, 1] : List ℝ) = 1 := by
      simp only [vectorNorm, List.foldl_cons, List.foldl_nil]
      norm_num
    have hn9 : vectorNorm Real.sqrt ([9/10, 1/10] : List ℝ) = Real.sqrt (41/50) := by
      simp only [vectorNorm, List.foldl_cons, List.foldl_nil]
      norm_num
    have hnq : normalizeVector Real.sqrt ([1, 0] : List ℝ) = [1, 0] := by
      simp only [normalizeVector, hn10]
      norm_num
    have hnq2 : normalizeVector Real.sqrt ([0, 1] : List ℝ) = [0, 1] := by
      simp only [normalizeVector, hn01]
      norm_num
    have hnq3 : normalizeVector Real.sqrt ([9/10, 1/10] : List ℝ) =
        [9/10 / Real.sqrt (41/50), 1/10 / Real.sqrt (41/50)] := by
      simp only [normalizeVector, hn9]
      rw [if_neg hsne]
      simp
    have hadd3 : addVectors Real.sqrt (initStore (emptyStore ℝ) 2)
        [[1, 0], [0, 1], [9/10, 1/10]] ["a", "b", "c"] = .ok
          { vectors := [[1, 0], [0, 1], [9/10, 1/10]],
            metadata := [{ id := "a", index := 0, norm := 1 },
              { id := "b", index := 1, norm := 1 },
              { id := "c", index := 2, norm := Real.sqrt (41/50) }],
            normalizedVectors := [[1, 0], [0, 1],
              [9/10 / Real.sqrt (41/50), 1/10 / Real.sqrt (41/50)]],
            dimension := some 2, isInitialized := true, indexType := "flat" } := by
      rw [show initStore (emptyStore ℝ) 2 =
        { vectors := [], metadata := [], normalizedVectors := [],
          dimension := some 2, isInitialized := true, indexType := "flat" } from rfl]
      unfold addVectors
      rw [if_neg (by simp), if_neg (by simp)]
      rw [show ([[1, 0], [0, 1], [9/10, 1/10]] : List (List ℝ)).zip ["a", "b", "c"] =
        [([1, 0], "a"), ([0, 1], "b"), ([9/10, 1/10], "c")] from rfl]
      rw [addVectorsLoop_all_good Real.sqrt _ _ 0 (by intro p hp; fin_cases hp <;> rfl)]
      simp only [addedMetadata, List.map_cons, List.map_nil,
        hn10, hn01, hn9, hnq, hnq2, hnq3, List.nil_append, List.length_nil,
        List.append_nil, Nat.zero_add]
    have hentries : searchEntries ([1, 0] : List ℝ)
        { vectors := [[1, 0], [0, 1], [9/10, 1/10]],
          metadata := [{ id := "a", index := 0, norm := 1 },
            { id := "b", index := 1, norm := 1 },
            { id := "c", index := 2, norm := Real.sqrt (41/50) }],
          normalizedVectors := [[1, 0], [0, 1],
            [9/10 / Real.sqrt (41/50), 1/10 / Real.sqrt (41/50)]],
          dimension := some 2, isInitialized := true, indexType := "flat" } =
        [⟨0, 1, "a"⟩, ⟨1, 0, "b"⟩, ⟨2, 9/10 / Real.sqrt (41/50), "c"⟩] := by
      simp [searchEntries, fastCosineSimilarity, List.range_succ]
    have i1 : insertDesc (⟨1, 0, "b"⟩ : SimEntry ℝ) [⟨0, 1, "a"⟩] =
        [⟨0, 1, "a"⟩, ⟨1, 0, "b"⟩] := by
      simp only [insertDesc]
      rw [if_neg (by norm_num)]
    have i2 : insertDesc (⟨2, 9/10 / Real.sqrt (41/50), "c"⟩ : SimEntry ℝ)
        [⟨0, 1, "a"⟩, ⟨1, 0, "b"⟩] =
        [⟨0, 1, "a"⟩, ⟨2, 9/10 / Real.sqrt (41/50), "c"⟩, ⟨1, 0, "b"⟩] := by
      simp only [insertDesc]
      rw [if_neg (not_lt.mpr hcle), if_pos hcpos]
    have hsort : sortDesc ([⟨0, 1, "a"⟩, ⟨1, 0, "b"⟩,
        ⟨2, 9/10 / Real.sqrt (41/50), "c"⟩] : List (SimEntry ℝ)) =
        [⟨0, 1, "a"⟩, ⟨2, 9/10 / Real.sqrt (41/50), "c"⟩, ⟨1, 0, "b"⟩] := by
      unfold sortDesc
      simp only [List.foldl_cons, List.foldl_nil]
      rw [show insertDesc (⟨0, 1, "a"⟩ : SimEntry ℝ) [] = [⟨0, 1, "a"⟩] from rfl, i1, i2]
    refine ⟨_, [{ id := "a", score := 1, distance := 0 },
      { id := "c", score := 9/10 / Real.sqrt (41/50),
        distance := 1 - 9/10 / Real.sqrt (41/50) }], hadd3, ?_, by simp⟩
    simp only [search, Bool.true_eq_false, if_false, ite_false]
    rw [hnq, hentries]
    unfold partialSort
    rw [hsort]
    norm_num

/-- Witness for the universally quantified part of `search_topk_spec` at a
concrete rational store and query. -/
theorem search_topk_spec_witness :
    ∃ sortedAll results,
      List.Perm sortedAll
        (searchEntries (normalizeVector (fun _ => (1 : ℚ)) [3]) demoStore1) ∧
      sortedAll.Pairwise lexBefore ∧
      search (fun _ => (1 : ℚ)) demoStore1 [3] 1 = .ok (results, demoStore1) ∧
      results = (sortedAll.take 1).map
        (fun r => { id := r.id, score := r.similarity, distance := 1 - r.similarity }) ∧
      results.length = min 1 demoStore1.metadata.length ∧
      results.Pairwise (fun x y => y.score ≤ x.score) ∧
      (∀ e ∈ results, e.distance = 1 - e.score) :=
  search_topk_spec.1 ℚ (fun _ => 1) demoStore1 [3] 1 (by decide) rfl rfl (by decide)

/-- C2 counterexample: with the embedder initialized and the external
capability returning the length-3 vector `[1,2,3]` for every input — a
length disagreeing with the declared dimension 1024 — `embedQuery`
nevertheless succeeds, returning that vector: the claimed `EmbeddingError`
on a dimension mismatch does not occur, because the source performs no
length check on the model's output. -/
theorem embed_no_dimension_check_cex :
    embedQuery true (fun _ => .ok ([1, 2, 3] : List ℚ)) "hello" = .ok [1, 2, 3] ∧
    ([1, 2, 3] : List ℚ).length ≠ getDimension := by
  constructor
  · rfl
  · simp [getDimension]

/-- C2 (amended): `embedQuery` and `embedDocument` succeed exactly when the
embedder is initialized, the text is non-empty, and the external capability
itself succeeds on the role-prefixed trimmed text; in that case they return
the capability's vector unchanged, with no check of its length against the
declared dimension. -/
theorem embed_success_characterization {K : Type} (isInit : Bool)
    (model : String → Except String (List K)) (text : String) (v : List K) :
    (embedQuery isInit model text = .ok v ↔
      isInit = true ∧ text ≠ "" ∧ model ("query: " ++ text.trim) = .ok v) ∧
    (embedDocument isInit model text = .ok v ↔
      isInit = true ∧ text ≠ "" ∧ model ("passage: " ++ text.trim) = .ok v) := by
  constructor
  · rw [embedQuery, e5Embed]
    cases isInit with
    | false => simp
    | true =>
      by_cases ht : text = ""
      · simp [ht]
      · simp only [ht, if_false, Bool.true_eq_false, ite_false, ne_eq,
          not_false_iff, true_and]
        cases hm : model ("query: " ++ text.trim) with
        | ok w => simp [hm]
        | error msg => simp [hm]
  · rw [embedDocument, e5Embed]
    cases isInit with
    | false => simp
    | true =>
      by_cases ht : text = ""
      · simp [ht]
      · simp only [ht, if_false, Bool.true_eq_false, ite_false, ne_eq,
          not_false_iff, true_and]
        cases hm : model ("passage: " ++ text.trim) with
        | ok w => simp [hm]
        | error msg => simp [hm]

end RagSql
